import Mathlib

/-!
Shallow embedding of `yolo/tools/dataset_helper.py`.

The module has four functions:
* `find_labels_path` — locate a labels source (JSON corpus file or a
  directory of per-image `.txt` files) for a dataset phase;
* `create_image_info_dict` — decode a corpus and build the image-ID-keyed
  index of non-crowd annotations plus the file-name-keyed image dictionary;
* `index_annotations_by_image` — the annotation-index builder itself;
* `get_scaled_segmentation` — normalize one image's polygon coordinates by
  the image width/height.

Python dictionaries are modelled as insertion-ordered association lists
(`List (key × value)`), matching CPython dict semantics: a new key is
appended at the end; re-assigning an existing key keeps its position and
replaces the value.  Record fields read with `d["k"]` are modelled as
`Option` fields; Python's `KeyError` on a missing corpus field is the
`MalformedCorpusError` outcome, numpy's reshape `ValueError` on an
odd-length point list is `MalformedAnnotationError`, and the
`FileNotFoundError` raised by `find_labels_path` when no labels exist is
`LabelsNotFoundError`.  Numbers flowing through the scaler are modelled as
rationals (`ℚ`); numpy's elementwise division is exact real division on the
values appearing here.
-/

deriving instance DecidableEq for Except

namespace DatasetHelper

/-- The failure outcomes of the module (Python exceptions as error values). -/
inductive DataError where
  | MalformedCorpusError
  | MalformedAnnotationError
  | LabelsNotFoundError
  deriving DecidableEq, Repr

/-- One entry of the corpus `"annotations"` list.  Each Python dict key that
the module may read is an `Option` field; `none` models the key being absent
(reading it raises `KeyError`). -/
structure AnnoDesc where
  image_id : Option Int
  category_id : Option ℚ
  iscrowd : Option Bool
  segmentation : Option (List (List ℚ))
  deriving DecidableEq, Repr

/-- One entry of the corpus `"images"` list. -/
structure ImgDesc where
  id : Option Int
  file_name : Option String
  height : Option Int
  width : Option Int
  deriving DecidableEq, Repr

/-- A decoded corpus: the two top-level keys the module reads. -/
structure Corpus where
  images : Option (List ImgDesc)
  annotations : Option (List AnnoDesc)
  deriving DecidableEq, Repr

/-! ### Path handling (`os.path.join`, `os.path.splitext`) -/

/-- Python `str.startswith`, on the character lists of the strings. -/
def strStartsWith (s pre : String) : Bool :=
  Nat.ble pre.data.length s.data.length && (s.data.take pre.data.length == pre.data)

/-- Python `str.endswith`, on the character lists of the strings. -/
def strEndsWith (s post : String) : Bool :=
  Nat.ble post.data.length s.data.length &&
    (s.data.drop (s.data.length - post.data.length) == post.data)

/-- `posixpath.join` restricted to two components. -/
def path_join (a b : String) : String :=
  if strStartsWith b ("/") then b
  else if a = "" ∨ strEndsWith a ("/") = true then a ++ b
  else a ++ "/" ++ b

/-- Index of the last occurrence of `c` in `cs`, counting from `i` at the head. -/
def lastIdxOfAux (c : Char) : List Char → Nat → Option Nat
  | [], _ => none
  | ch :: rest, i =>
    match lastIdxOfAux c rest (i + 1) with
    | some j => some j
    | none => if ch = c then some i else none

/-- Index of the last occurrence of `c` in `cs`. -/
def lastIdxOf (cs : List Char) (c : Char) : Option Nat :=
  lastIdxOfAux c cs 0

/-- The root part of `posixpath.splitext`: everything before the extension.
The extension starts at the last dot, provided that dot lies after the last
path separator and at least one non-dot character precedes it within the
base name (so `".bashrc"` has no extension). -/
def splitextStem (p : String) : String :=
  let cs := p.data
  match lastIdxOf cs ('.') with
  | none => p
  | some d =>
    let s : Nat :=
      match lastIdxOf cs ('/') with
      | none => 0
      | some k => k + 1
    if s ≤ d ∧ ((cs.drop s).take (d - s)).any (fun ch => ch ≠ ('.')) then
      String.mk (cs.take d)
    else p

/-! ### `find_labels_path` -/

/-- The filesystem facts `find_labels_path` consults (`os.path.isfile`,
`os.path.isdir`, `os.listdir`). -/
structure FileSystem where
  isfile : String → Bool
  isdir : String → Bool
  listdir : String → List String

/-- `path.join(dataset_path, "annotations", f"instances_{phase_name}.json")`. -/
def jsonLabelsPath (dataset_path phase_name : String) : String :=
  path_join (path_join dataset_path ("annotations"))
    (("instances_") ++ phase_name ++ (".json"))

/-- `path.join(dataset_path, "labels", phase_name)`. -/
def txtLabelsPath (dataset_path phase_name : String) : String :=
  path_join (path_join dataset_path ("labels")) phase_name

/-- `find_labels_path(dataset_path, phase_name)`.  The first branch keeps the
source's `path.isfile(json_labels_path) and False` guard verbatim. -/
def find_labels_path (fs : FileSystem) (dataset_path phase_name : String) :
    Except DataError (String × String) :=
  let json_labels_path := jsonLabelsPath dataset_path phase_name
  let txt_labels_path := txtLabelsPath dataset_path phase_name
  if fs.isfile json_labels_path && false then
    .ok (json_labels_path, "json")
  else if fs.isdir txt_labels_path then
    let txt_files := (fs.listdir txt_labels_path).filter (fun f => strEndsWith f (".txt"))
    if txt_files.isEmpty then
      .error .LabelsNotFoundError
    else
      .ok (txt_labels_path, "txt")
  else
    .error .LabelsNotFoundError

/-! ### `index_annotations_by_image` -/

/-- Dict read `d[k]` on the image-ID-keyed lookup. -/
def lookupIdx : List (Int × List AnnoDesc) → Int → Option (List AnnoDesc)
  | [], _ => none
  | (k, v) :: rest, i => if k = i then some v else lookupIdx rest i

/-- The body `if image_id not in lookup: lookup[image_id] = []` followed by
`lookup[image_id].append(anno)`: append to the existing entry in place, or
append a fresh singleton entry at the end. -/
def appendAt : List (Int × List AnnoDesc) → Int → AnnoDesc → List (Int × List AnnoDesc)
  | [], i, a => [(i, [a])]
  | (k, v) :: rest, i, a =>
    if k = i then (k, v ++ [a]) :: rest else (k, v) :: appendAt rest i a

/-- The loop of `index_annotations_by_image` over `data["annotations"]`,
carrying the lookup dict. -/
def index_annotations_by_image_loop :
    List AnnoDesc → List (Int × List AnnoDesc) →
    Except DataError (List (Int × List AnnoDesc))
  | [], acc => .ok acc
  | a :: rest, acc =>
    match a.iscrowd with
    | none => .error .MalformedCorpusError
    | some true => index_annotations_by_image_loop rest acc
    | some false =>
      match a.image_id with
      | none => .error .MalformedCorpusError
      | some image_id => index_annotations_by_image_loop rest (appendAt acc image_id a)

/-- `index_annotations_by_image(data)`. -/
def index_annotations_by_image (data : Corpus) :
    Except DataError (List (Int × List AnnoDesc)) :=
  match data.annotations with
  | none => .error .MalformedCorpusError
  | some annos => index_annotations_by_image_loop annos []

/-! ### `create_image_info_dict` -/

/-- Dict read on the file-name-keyed image dictionary. -/
def lookupStr : List (String × ImgDesc) → String → Option ImgDesc
  | [], _ => none
  | (k, v) :: rest, s => if k = s then some v else lookupStr rest s

/-- CPython dict assignment `d[k] = v`: replace in place if the key exists,
otherwise append at the end. -/
def dictInsert : List (String × ImgDesc) → String → ImgDesc → List (String × ImgDesc)
  | [], k, v => [(k, v)]
  | (k0, v0) :: rest, k, v =>
    if k0 = k then (k0, v) :: rest else (k0, v0) :: dictInsert rest k v

/-- The dict comprehension
`{path.splitext(img["file_name"])[0]: img for img in labels_data["images"]}`. -/
def create_image_info_dict_loop :
    List ImgDesc → List (String × ImgDesc) →
    Except DataError (List (String × ImgDesc))
  | [], acc => .ok acc
  | img :: rest, acc =>
    match img.file_name with
    | none => .error .MalformedCorpusError
    | some fn => create_image_info_dict_loop rest (dictInsert acc (splitextStem fn) img)

/-- `create_image_info_dict` after the external file read and JSON decode:
build the annotation index, then the image dictionary, and return both. -/
def create_image_info_dict (labels_data : Corpus) :
    Except DataError (List (Int × List AnnoDesc) × List (String × ImgDesc)) :=
  match index_annotations_by_image labels_data with
  | .error e => .error e
  | .ok annotations_index =>
    match labels_data.images with
    | none => .error .MalformedCorpusError
    | some imgs =>
      match create_image_info_dict_loop imgs [] with
      | .error e => .error e
      | .ok image_info_dict => .ok (annotations_index, image_info_dict)

/-! ### `get_scaled_segmentation` -/

/-- The image dimensions read from `image_dimensions["height"]` and
`image_dimensions["width"]`. -/
structure ImageDims where
  height : ℚ
  width : ℚ
  deriving DecidableEq, Repr

/-- `np.array(seg_list).reshape(-1, 2)`: group a flat list into (x, y) pairs;
`none` models the `ValueError` numpy raises when the length is odd. -/
def pairUp : List ℚ → Option (List (ℚ × ℚ))
  | [] => some []
  | [_] => none
  | x :: y :: rest => (pairUp rest).map (fun l => (x, y) :: l)

/-- The body of the loop of `get_scaled_segmentation` for one element of
`annotations`: read `category_id` and `segmentation`, flatten the rings,
reshape into pairs, divide elementwise by `[w, h]`, flatten back and prepend
the category. -/
def scaleAnno (dims : ImageDims) (a : AnnoDesc) : Except DataError (List ℚ) :=
  match a.category_id with
  | none => .error .MalformedCorpusError
  | some category_id =>
    match a.segmentation with
    | none => .error .MalformedCorpusError
    | some seg =>
      let seg_list := seg.flatten
      match pairUp seg_list with
      | none => .error .MalformedAnnotationError
      | some prs =>
        let scaled_seg_data := prs.map (fun q => [q.1 / dims.width, q.2 / dims.height])
        .ok (category_id :: scaled_seg_data.flatten)

/-- The loop of `get_scaled_segmentation`, appending one scaled row per
element in input order. -/
def get_scaled_segmentation_loop (dims : ImageDims) :
    List AnnoDesc → Except DataError (List (List ℚ))
  | [] => .ok []
  | a :: rest =>
    match scaleAnno dims a with
    | .error e => .error e
    | .ok s =>
      match get_scaled_segmentation_loop dims rest with
      | .error e => .error e
      | .ok r => .ok (s :: r)

/-- `get_scaled_segmentation(annotations, image_dimensions)`. -/
def get_scaled_segmentation (anns : Option (List AnnoDesc)) (dims : ImageDims) :
    Except DataError (Option (List (List ℚ))) :=
  match anns with
  | none => .ok none
  | some l =>
    match get_scaled_segmentation_loop dims l with
    | .error e => .error e
    | .ok r => .ok (some r)

/-! ### Specification-side descriptions -/

/-- The non-crowd entries of `annos` whose `image_id` is `k`, in source order:
what the spec says each indexed per-image list contains. -/
def nonCrowdFor (annos : List AnnoDesc) (k : Int) : List AnnoDesc :=
  annos.filter (fun a => decide (a.iscrowd = some false ∧ a.image_id = some k))

/-- Total number of entries indexed across all per-image lists. -/
def totalIndexed (lk : List (Int × List AnnoDesc)) : Nat :=
  (lk.map (fun p => p.2.length)).sum

/-! ### Lemmas about the annotation indexer -/

theorem lookupIdx_appendAt (acc : List (Int × List AnnoDesc)) (i : Int) (a : AnnoDesc)
    (k : Int) :
    lookupIdx (appendAt acc i a) k =
      if i = k then some ((lookupIdx acc k).getD [] ++ [a]) else lookupIdx acc k := by
  induction acc with
  | nil => by_cases h : i = k <;> simp [appendAt, lookupIdx, h]
  | cons p rest ih =>
    obtain ⟨k0, v0⟩ := p
    by_cases h0 : k0 = i
    · subst h0
      by_cases hk : k0 = k
      · subst hk
        simp [appendAt, lookupIdx]
      · simp [appendAt, lookupIdx, hk]
    · by_cases hk : k0 = k
      · subst hk
        have hik : ¬i = k0 := fun h => h0 h.symm
        simp [appendAt, lookupIdx, h0, hik]
      · simp [appendAt, lookupIdx, h0, hk, ih]

theorem index_loop_char (annos : List AnnoDesc) :
    ∀ acc lk, index_annotations_by_image_loop annos acc = .ok lk →
      ∀ k, (lookupIdx lk k).getD [] = (lookupIdx acc k).getD [] ++ nonCrowdFor annos k := by
  induction annos with
  | nil =>
    intro acc lk h k
    simp only [index_annotations_by_image_loop, Except.ok.injEq] at h
    subst h
    simp [nonCrowdFor]
  | cons a rest ih =>
    intro acc lk h k
    cases hcr : a.iscrowd with
    | none => simp [index_annotations_by_image_loop, hcr] at h
    | some b =>
      cases b with
      | true =>
        simp only [index_annotations_by_image_loop, hcr] at h
        have := ih acc lk h k
        simpa [nonCrowdFor, List.filter_cons, hcr] using this
      | false =>
        cases him : a.image_id with
        | none => simp [index_annotations_by_image_loop, hcr, him] at h
        | some iid =>
          simp only [index_annotations_by_image_loop, hcr, him] at h
          have := ih (appendAt acc iid a) lk h k
          rw [this, lookupIdx_appendAt]
          by_cases hk : iid = k
          · subst hk
            simp [nonCrowdFor, List.filter_cons, hcr, him]
          · simp [nonCrowdFor, List.filter_cons, hcr, him, hk]

theorem mem_appendAt (i : Int) (a : AnnoDesc) :
    ∀ (acc : List (Int × List AnnoDesc)) (p : Int × List AnnoDesc),
      p ∈ appendAt acc i a → ∀ x ∈ p.2, x = a ∨ ∃ q ∈ acc, x ∈ q.2 := by
  intro acc
  induction acc with
  | nil =>
    intro p hp
    simp only [appendAt, List.mem_singleton] at hp
    subst hp
    simp
  | cons q0 rest ih =>
    obtain ⟨k0, v0⟩ := q0
    intro p hp
    by_cases h0 : k0 = i
    · subst h0
      simp [appendAt] at hp
      rcases hp with hp | hp
      · subst hp
        intro x hx
        rcases List.mem_append.mp hx with hx | hx
        · exact Or.inr ⟨(k0, v0), List.mem_cons_self _ _, hx⟩
        · exact Or.inl (List.mem_singleton.mp hx)
      · intro x hx
        exact Or.inr ⟨p, List.mem_cons_of_mem _ hp, hx⟩
    · simp [appendAt, h0] at hp
      rcases hp with hp | hp
      · subst hp
        intro x hx
        exact Or.inr ⟨(k0, v0), List.mem_cons_self _ _, hx⟩
      · intro x hx
        rcases ih p hp x hx with hx' | ⟨q, hq, hxq⟩
        · exact Or.inl hx'
        · exact Or.inr ⟨q, List.mem_cons_of_mem _ hq, hxq⟩

theorem index_loop_no_crowd (annos : List AnnoDesc) :
    ∀ acc lk, index_annotations_by_image_loop annos acc = .ok lk →
      (∀ p ∈ acc, ∀ x ∈ p.2, x.iscrowd = some false) →
      ∀ p ∈ lk, ∀ x ∈ p.2, x.iscrowd = some false := by
  induction annos with
  | nil =>
    intro acc lk h hacc
    simp only [index_annotations_by_image_loop, Except.ok.injEq] at h
    subst h
    exact hacc
  | cons a rest ih =>
    intro acc lk h hacc
    cases hcr : a.iscrowd with
    | none => simp [index_annotations_by_image_loop, hcr] at h
    | some b =>
      cases b with
      | true =>
        simp only [index_annotations_by_image_loop, hcr] at h
        exact ih acc lk h hacc
      | false =>
        cases him : a.image_id with
        | none => simp [index_annotations_by_image_loop, hcr, him] at h
        | some iid =>
          simp only [index_annotations_by_image_loop, hcr, him] at h
          refine ih (appendAt acc iid a) lk h ?_
          intro p hp x hx
          rcases mem_appendAt iid a acc p hp x hx with hx' | ⟨q, hq, hxq⟩
          · subst hx'
            exact hcr
          · exact hacc q hq x hxq

theorem totalIndexed_appendAt (acc : List (Int × List AnnoDesc)) (i : Int) (a : AnnoDesc) :
    totalIndexed (appendAt acc i a) = totalIndexed acc + 1 := by
  induction acc with
  | nil => simp [appendAt, totalIndexed]
  | cons q0 rest ih =>
    obtain ⟨k0, v0⟩ := q0
    by_cases h0 : k0 = i
    · simp [appendAt, h0, totalIndexed]
      omega
    · simp only [appendAt, if_neg h0, totalIndexed, List.map_cons, List.sum_cons] at ih ⊢
      omega

theorem index_loop_count (annos : List AnnoDesc) :
    ∀ acc lk, index_annotations_by_image_loop annos acc = .ok lk →
      totalIndexed lk =
        totalIndexed acc + (annos.filter (fun a => decide (a.iscrowd = some false))).length := by
  induction annos with
  | nil =>
    intro acc lk h
    simp only [index_annotations_by_image_loop, Except.ok.injEq] at h
    subst h
    simp
  | cons a rest ih =>
    intro acc lk h
    cases hcr : a.iscrowd with
    | none => simp [index_annotations_by_image_loop, hcr] at h
    | some b =>
      cases b with
      | true =>
        simp only [index_annotations_by_image_loop, hcr] at h
        have := ih acc lk h
        simpa [List.filter_cons, hcr] using this
      | false =>
        cases him : a.image_id with
        | none => simp [index_annotations_by_image_loop, hcr, him] at h
        | some iid =>
          simp only [index_annotations_by_image_loop, hcr, him] at h
          have := ih (appendAt acc iid a) lk h
          rw [this, totalIndexed_appendAt]
          simp [List.filter_cons, hcr]
          omega

theorem index_loop_iscrowd_present (annos : List AnnoDesc) :
    ∀ acc lk, index_annotations_by_image_loop annos acc = .ok lk →
      ∀ a ∈ annos, a.iscrowd ≠ none := by
  induction annos with
  | nil => intro _ _ _ a ha; exact absurd ha (List.not_mem_nil a)
  | cons a rest ih =>
    intro acc lk h b hb
    cases hcr : a.iscrowd with
    | none => simp [index_annotations_by_image_loop, hcr] at h
    | some c =>
      rcases List.mem_cons.mp hb with hb | hb
      · subst hb
        simp [hcr]
      · cases c with
        | true =>
          simp only [index_annotations_by_image_loop, hcr] at h
          exact ih acc lk h b hb
        | false =>
          cases him : a.image_id with
          | none => simp [index_annotations_by_image_loop, hcr, him] at h
          | some iid =>
            simp only [index_annotations_by_image_loop, hcr, him] at h
            exact ih (appendAt acc iid a) lk h b hb

theorem filter_iscrowd_partition (annos : List AnnoDesc)
    (h : ∀ a ∈ annos, a.iscrowd ≠ none) :
    (annos.filter (fun a => decide (a.iscrowd = some false))).length
      + (annos.filter (fun a => decide (a.iscrowd = some true))).length = annos.length := by
  induction annos with
  | nil => simp
  | cons a rest ih =>
    have ha := h a (List.mem_cons_self _ _)
    have hrest := ih (fun b hb => h b (List.mem_cons_of_mem _ hb))
    cases hcr : a.iscrowd with
    | none => exact absurd hcr ha
    | some b =>
      cases b <;> simp [List.filter_cons, hcr] <;> omega

/-- C1: for every corpus, no crowd-flagged entry appears anywhere in the index
built by `index_annotations_by_image`; each per-image list is exactly the
non-crowd entries with that `image_id` in their source order (so every
non-crowd entry is appended to the list keyed by its `image_id`, created on
first occurrence); and the total number of indexed entries equals the total
number of entries minus the crowd-flagged ones. -/
theorem index_excludes_crowd_and_groups_in_order
    (c : Corpus) (annos : List AnnoDesc) (lk : List (Int × List AnnoDesc))
    (hann : c.annotations = some annos)
    (h : index_annotations_by_image c = .ok lk) :
    (∀ p ∈ lk, ∀ x ∈ p.2, x.iscrowd = some false) ∧
    (∀ k : Int, (lookupIdx lk k).getD [] = nonCrowdFor annos k) ∧
    totalIndexed lk + (annos.filter (fun a => decide (a.iscrowd = some true))).length
      = annos.length := by
  simp only [index_annotations_by_image, hann] at h
  refine ⟨index_loop_no_crowd annos [] lk h (by simp), fun k => ?_, ?_⟩
  · have := index_loop_char annos [] lk h k
    simpa [lookupIdx] using this
  · have hc := index_loop_count annos [] lk h
    have hs := index_loop_iscrowd_present annos [] lk h
    have hpart := filter_iscrowd_partition annos hs
    simp only [totalIndexed, List.map_nil, List.sum_nil, Nat.zero_add] at hc ⊢
    omega

/-- Concrete data for the C1 witness: two non-crowd entries for image 1
around a crowd entry for image 2. -/
def annosC1 : List AnnoDesc :=
  [⟨some 1, none, some false, none⟩, ⟨some 2, none, some true, none⟩,
   ⟨some 1, none, some false, none⟩]

/-- Witness for C1 at a concrete three-entry corpus. -/
theorem index_excludes_crowd_and_groups_in_order_witness :
    (∀ p ∈ [((1 : Int), [annosC1.get ⟨0, by decide⟩, annosC1.get ⟨2, by decide⟩])],
        ∀ x ∈ p.2, x.iscrowd = some false) ∧
    (∀ k : Int,
        (lookupIdx [((1 : Int), [annosC1.get ⟨0, by decide⟩, annosC1.get ⟨2, by decide⟩])] k).getD []
          = nonCrowdFor annosC1 k) ∧
    totalIndexed [((1 : Int), [annosC1.get ⟨0, by decide⟩, annosC1.get ⟨2, by decide⟩])]
        + (annosC1.filter (fun a => decide (a.iscrowd = some true))).length
      = annosC1.length :=
  index_excludes_crowd_and_groups_in_order ⟨some [], some annosC1⟩ annosC1
    [((1 : Int), [annosC1.get ⟨0, by decide⟩, annosC1.get ⟨2, by decide⟩])] rfl (by decide)

/-! ### Lemmas about fail-fast behaviour of the index builder -/

theorem index_loop_missing_iscrowd (a : AnnoDesc) (hcr : a.iscrowd = none) :
    ∀ (annos : List AnnoDesc), a ∈ annos → ∀ acc,
      index_annotations_by_image_loop annos acc = .error .MalformedCorpusError := by
  intro annos
  induction annos with
  | nil => intro ha; exact absurd ha (List.not_mem_nil a)
  | cons b rest ih =>
    intro ha acc
    rcases List.mem_cons.mp ha with hb | hb
    · subst hb
      simp [index_annotations_by_image_loop, hcr]
    · cases hcb : b.iscrowd with
      | none => simp [index_annotations_by_image_loop, hcb]
      | some c =>
        cases c with
        | true =>
          simp only [index_annotations_by_image_loop, hcb]
          exact ih hb acc
        | false =>
          cases hib : b.image_id with
          | none => simp [index_annotations_by_image_loop, hcb, hib]
          | some iid =>
            simp only [index_annotations_by_image_loop, hcb, hib]
            exact ih hb (appendAt acc iid b)

theorem index_loop_missing_image_id (a : AnnoDesc) (hcr : a.iscrowd = some false)
    (hid : a.image_id = none) :
    ∀ (annos : List AnnoDesc), a ∈ annos → ∀ acc,
      index_annotations_by_image_loop annos acc = .error .MalformedCorpusError := by
  intro annos
  induction annos with
  | nil => intro ha; exact absurd ha (List.not_mem_nil a)
  | cons b rest ih =>
    intro ha acc
    rcases List.mem_cons.mp ha with hb | hb
    · subst hb
      simp [index_annotations_by_image_loop, hcr, hid]
    · cases hcb : b.iscrowd with
      | none => simp [index_annotations_by_image_loop, hcb]
      | some c =>
        cases c with
        | true =>
          simp only [index_annotations_by_image_loop, hcb]
          exact ih hb acc
        | false =>
          cases hib : b.image_id with
          | none => simp [index_annotations_by_image_loop, hcb, hib]
          | some iid =>
            simp only [index_annotations_by_image_loop, hcb, hib]
            exact ih hb (appendAt acc iid b)

theorem cid_loop_missing_file_name (img : ImgDesc) (hf : img.file_name = none) :
    ∀ (imgs : List ImgDesc), img ∈ imgs → ∀ acc,
      create_image_info_dict_loop imgs acc = .error .MalformedCorpusError := by
  intro imgs
  induction imgs with
  | nil => intro hm; exact absurd hm (List.not_mem_nil img)
  | cons b rest ih =>
    intro hm acc
    rcases List.mem_cons.mp hm with hb | hb
    · subst hb
      simp [create_image_info_dict_loop, hf]
    · cases hfb : b.file_name with
      | none => simp [create_image_info_dict_loop, hfb]
      | some fn =>
        simp only [create_image_info_dict_loop, hfb]
        exact ih hb (dictInsert acc (splitextStem fn) b)

/-- C5 (amended): building the index fails fast with `MalformedCorpusError`
when the `"annotations"` key is absent, when any entry of the annotation list
lacks `iscrowd`, when a non-crowd entry lacks `image_id`, when the `"images"`
key is absent, or when any image descriptor lacks `file_name`; in each case
the error is returned instead of any partial index.  (Fields the build never
reads — `category_id`, `segmentation`, `height`, `width`, `id` — are not
validated; see the counterexample.) -/
theorem build_fails_fast_on_missing_structure :
    (∀ c : Corpus, c.annotations = none →
      create_image_info_dict c = .error .MalformedCorpusError) ∧
    (∀ (c : Corpus) (annos : List AnnoDesc) (a : AnnoDesc),
      c.annotations = some annos → a ∈ annos → a.iscrowd = none →
      create_image_info_dict c = .error .MalformedCorpusError) ∧
    (∀ (c : Corpus) (annos : List AnnoDesc) (a : AnnoDesc),
      c.annotations = some annos → a ∈ annos → a.iscrowd = some false →
      a.image_id = none →
      create_image_info_dict c = .error .MalformedCorpusError) ∧
    (∀ (c : Corpus) (idx : List (Int × List AnnoDesc)),
      index_annotations_by_image c = .ok idx → c.images = none →
      create_image_info_dict c = .error .MalformedCorpusError) ∧
    (∀ (c : Corpus) (imgs : List ImgDesc) (img : ImgDesc)
        (idx : List (Int × List AnnoDesc)),
      index_annotations_by_image c = .ok idx → c.images = some imgs →
      img ∈ imgs → img.file_name = none →
      create_image_info_dict c = .error .MalformedCorpusError) := by
  refine ⟨?_, ?_, ?_, ?_, ?_⟩
  · intro c hann
    simp [create_image_info_dict, index_annotations_by_image, hann]
  · intro c annos a hann ha hcr
    have := index_loop_missing_iscrowd a hcr annos ha []
    simp [create_image_info_dict, index_annotations_by_image, hann, this]
  · intro c annos a hann ha hcr hid
    have := index_loop_missing_image_id a hcr hid annos ha []
    simp [create_image_info_dict, index_annotations_by_image, hann, this]
  · intro c idx hidx himgs
    simp [create_image_info_dict, hidx, himgs]
  · intro c imgs img idx hidx himgs hm hf
    have := cid_loop_missing_file_name img hf imgs hm []
    simp [create_image_info_dict, hidx, himgs, this]

/-- An annotation entry lacking `category_id` and `segmentation` (but having
`iscrowd` and `image_id`). -/
def looseAnno : AnnoDesc := ⟨some 1, none, some false, none⟩

/-- An image descriptor lacking `height`, `width` and `id` (but having
`file_name`). -/
def looseImg : ImgDesc := ⟨none, some "img001.jpg", none, none⟩

/-- A corpus whose descriptors lack fields C5 calls required. -/
def looseCorpus : Corpus := ⟨some [looseImg], some [looseAnno]⟩

/-- Counterexample to C5 as stated: a corpus containing an annotation entry
with no `category_id` and no `segmentation`, and an image descriptor with no
`height`, `width` or `id`, builds successfully — no `MalformedCorpusError`
is raised for those missing required fields. -/
theorem build_fails_fast_on_missing_structure_cex :
    looseAnno.category_id = none ∧ looseAnno.segmentation = none ∧
    looseImg.height = none ∧ looseImg.width = none ∧ looseImg.id = none ∧
    create_image_info_dict looseCorpus =
      .ok ([((1 : Int), [looseAnno])], [("img001", looseImg)]) := by
  refine ⟨rfl, rfl, rfl, rfl, rfl, ?_⟩
  decide

/-- Witness for C5 (amended) at concrete corpora: a corpus with no
`"annotations"` key, and a corpus whose annotation list is fine but which has
no `"images"` key. -/
theorem build_fails_fast_on_missing_structure_witness :
    create_image_info_dict ⟨some [], none⟩ = .error .MalformedCorpusError ∧
    create_image_info_dict ⟨none, some []⟩ = .error .MalformedCorpusError :=
  ⟨build_fails_fast_on_missing_structure.1 ⟨some [], none⟩ rfl,
   build_fails_fast_on_missing_structure.2.2.2.1 ⟨none, some []⟩ [] rfl rfl⟩

/-! ### Lemmas about the image-info dictionary -/

/-- The key an image descriptor is stored under: its file name with the
extension stripped. -/
def stemOf (img : ImgDesc) : Option String := img.file_name.map splitextStem

/-- The last image in `imgs` whose stripped file name is `k`: what the spec's
last-write-wins policy says the dictionary must hold at key `k`. -/
def lastImageFor : List ImgDesc → String → Option ImgDesc
  | [], _ => none
  | img :: rest, k =>
    match lastImageFor rest k with
    | some i => some i
    | none => if stemOf img = some k then some img else none

theorem lookupStr_dictInsert (k : String) (v : ImgDesc) :
    ∀ (acc : List (String × ImgDesc)) (s : String),
      lookupStr (dictInsert acc k v) s = if k = s then some v else lookupStr acc s := by
  intro acc
  induction acc with
  | nil => intro s; by_cases h : k = s <;> simp [dictInsert, lookupStr, h]
  | cons q0 rest ih =>
    obtain ⟨k0, v0⟩ := q0
    intro s
    by_cases h0 : k0 = k
    · subst h0
      by_cases hs : k0 = s
      · subst hs
        simp [dictInsert, lookupStr]
      · simp [dictInsert, lookupStr, hs]
    · by_cases hs : k0 = s
      · subst hs
        have hks : ¬k = k0 := fun h => h0 h.symm
        simp [dictInsert, lookupStr, h0, hks]
      · simp [dictInsert, lookupStr, h0, hs, ih]

theorem mem_dictInsert (k : String) (v : ImgDesc) :
    ∀ (acc : List (String × ImgDesc)) (p : String × ImgDesc),
      p ∈ dictInsert acc k v → p = (k, v) ∨ p ∈ acc := by
  intro acc
  induction acc with
  | nil =>
    intro p hp
    simp only [dictInsert, List.mem_singleton] at hp
    exact Or.inl hp
  | cons q0 rest ih =>
    obtain ⟨k0, v0⟩ := q0
    intro p hp
    by_cases h0 : k0 = k
    · subst h0
      simp [dictInsert] at hp
      rcases hp with hp | hp
      · exact Or.inl hp
      · exact Or.inr (List.mem_cons_of_mem _ hp)
    · simp [dictInsert, h0] at hp
      rcases hp with hp | hp
      · exact Or.inr (hp ▸ List.mem_cons_self _ _)
      · rcases ih p hp with hp' | hp'
        · exact Or.inl hp'
        · exact Or.inr (List.mem_cons_of_mem _ hp')

theorem length_dictInsert_of_fresh (k : String) (v : ImgDesc) :
    ∀ acc : List (String × ImgDesc), lookupStr acc k = none →
      (dictInsert acc k v).length = acc.length + 1 := by
  intro acc
  induction acc with
  | nil => intro _; simp [dictInsert]
  | cons q0 rest ih =>
    obtain ⟨k0, v0⟩ := q0
    intro h
    by_cases h0 : k0 = k
    · simp [lookupStr, h0] at h
    · simp only [lookupStr, if_neg h0] at h
      simp [dictInsert, h0, ih h]

theorem cid_loop_last_wins :
    ∀ (imgs : List ImgDesc) (acc d : List (String × ImgDesc)),
      create_image_info_dict_loop imgs acc = .ok d →
      ∀ k, lookupStr d k =
        match lastImageFor imgs k with
        | some i => some i
        | none => lookupStr acc k := by
  intro imgs
  induction imgs with
  | nil =>
    intro acc d h k
    simp only [create_image_info_dict_loop, Except.ok.injEq] at h
    subst h
    simp [lastImageFor]
  | cons img rest ih =>
    intro acc d h k
    cases hfn : img.file_name with
    | none => simp [create_image_info_dict_loop, hfn] at h
    | some fn =>
      simp only [create_image_info_dict_loop, hfn] at h
      have := ih (dictInsert acc (splitextStem fn) img) d h k
      rw [this, lookupStr_dictInsert]
      cases hlast : lastImageFor rest k with
      | some i => simp [lastImageFor, hlast]
      | none =>
        by_cases hk : splitextStem fn = k
        · simp [lastImageFor, hlast, stemOf, hfn, hk]
        · simp [lastImageFor, hlast, stemOf, hfn, hk]

theorem cid_loop_mem :
    ∀ (imgs : List ImgDesc) (acc d : List (String × ImgDesc)),
      create_image_info_dict_loop imgs acc = .ok d →
      ∀ p ∈ d, p ∈ acc ∨ ∃ img fn, img ∈ imgs ∧ img.file_name = some fn ∧
        p.1 = splitextStem fn ∧ p.2 = img := by
  intro imgs
  induction imgs with
  | nil =>
    intro acc d h p hp
    simp only [create_image_info_dict_loop, Except.ok.injEq] at h
    subst h
    exact Or.inl hp
  | cons img rest ih =>
    intro acc d h p hp
    cases hfn : img.file_name with
    | none => simp [create_image_info_dict_loop, hfn] at h
    | some fn =>
      simp only [create_image_info_dict_loop, hfn] at h
      rcases ih (dictInsert acc (splitextStem fn) img) d h p hp with hp' | ⟨i, f, hi, hf, h1, h2⟩
      · rcases mem_dictInsert (splitextStem fn) img acc p hp' with hp'' | hp''
        · exact Or.inr ⟨img, fn, List.mem_cons_self _ _, hfn, by simp [hp''], by simp [hp'']⟩
        · exact Or.inl hp''
      · exact Or.inr ⟨i, f, List.mem_cons_of_mem _ hi, hf, h1, h2⟩

theorem cid_loop_length :
    ∀ (imgs : List ImgDesc) (acc d : List (String × ImgDesc)),
      create_image_info_dict_loop imgs acc = .ok d →
      (imgs.filterMap stemOf).Nodup →
      (∀ img ∈ imgs, ∀ fn, img.file_name = some fn →
        lookupStr acc (splitextStem fn) = none) →
      d.length = acc.length + imgs.length := by
  intro imgs
  induction imgs with
  | nil =>
    intro acc d h _ _
    simp only [create_image_info_dict_loop, Except.ok.injEq] at h
    subst h
    simp
  | cons img rest ih =>
    intro acc d h hnd hacc
    cases hfn : img.file_name with
    | none => simp [create_image_info_dict_loop, hfn] at h
    | some fn =>
      simp only [create_image_info_dict_loop, hfn] at h
      have hstem : stemOf img = some (splitextStem fn) := by simp [stemOf, hfn]
      have hnd' : ((img :: rest).filterMap stemOf) =
          splitextStem fn :: rest.filterMap stemOf := by
        simp [List.filterMap_cons, hstem]
      rw [hnd'] at hnd
      have hnotin : splitextStem fn ∉ rest.filterMap stemOf := (List.nodup_cons.mp hnd).1
      have hndrest : (rest.filterMap stemOf).Nodup := (List.nodup_cons.mp hnd).2
      have hfresh : lookupStr acc (splitextStem fn) = none :=
        hacc img (List.mem_cons_self _ _) fn hfn
      have hacc' : ∀ i ∈ rest, ∀ f, i.file_name = some f →
          lookupStr (dictInsert acc (splitextStem fn) img) (splitextStem f) = none := by
        intro i hi f hf
        rw [lookupStr_dictInsert]
        have hne : ¬splitextStem fn = splitextStem f := by
          intro he
          exact hnotin (he ▸ List.mem_filterMap.mpr ⟨i, hi, by simp [stemOf, hf]⟩)
        rw [if_neg hne]
        exact hacc i (List.mem_cons_of_mem _ hi) f hf
      have := ih (dictInsert acc (splitextStem fn) img) d h hndrest hacc'
      rw [this, length_dictInsert_of_fresh _ _ acc hfresh]
      simp
      omega

/-- C8: every entry of the image dictionary built by `create_image_info_dict`
is keyed by some image descriptor's `file_name` with its extension stripped
and holds that descriptor; when the stripped names are distinct the
dictionary has exactly one entry per descriptor; and looking any key up
yields the last descriptor with that stripped name (last-write-wins, no
error on collisions). -/
theorem image_info_dict_keyed_by_stem
    (c : Corpus) (imgs : List ImgDesc) (idx : List (Int × List AnnoDesc))
    (d : List (String × ImgDesc))
    (himgs : c.images = some imgs)
    (h : create_image_info_dict c = .ok (idx, d)) :
    (∀ p ∈ d, ∃ img fn, img ∈ imgs ∧ img.file_name = some fn ∧
        p.1 = splitextStem fn ∧ p.2 = img) ∧
    ((imgs.filterMap stemOf).Nodup → d.length = imgs.length) ∧
    (∀ k, lookupStr d k = lastImageFor imgs k) := by
  cases hidx : index_annotations_by_image c with
  | error e => simp [create_image_info_dict, hidx] at h
  | ok idx0 =>
    cases hloop : create_image_info_dict_loop imgs [] with
    | error e => simp [create_image_info_dict, hidx, himgs, hloop] at h
    | ok d0 =>
      have hds : d0 = d := by
        simp only [create_image_info_dict, hidx, himgs, hloop, Except.ok.injEq,
          Prod.mk.injEq] at h
        exact h.2
      subst hds
      refine ⟨?_, ?_, ?_⟩
      · intro p hp
        rcases cid_loop_mem imgs [] d0 hloop p hp with hp' | hp'
        · exact absurd hp' (List.not_mem_nil p)
        · exact hp'
      · intro hnd
        have := cid_loop_length imgs [] d0 hloop hnd (by intro _ _ _ _; rfl)
        simpa using this
      · intro k
        have := cid_loop_last_wins imgs [] d0 hloop k
        rw [this]
        cases lastImageFor imgs k <;> simp [lookupStr]

/-- Concrete images for the C8 witness. -/
def imgsC8 : List ImgDesc :=
  [⟨some 10, some "img001.jpg", some 480, some 640⟩,
   ⟨some 11, some "pic.png", some 100, some 200⟩]

/-- The dictionary built from `imgsC8`. -/
def dictC8 : List (String × ImgDesc) :=
  [("img001", ⟨some 10, some "img001.jpg", some 480, some 640⟩),
   ("pic", ⟨some 11, some "pic.png", some 100, some 200⟩)]

/-- Witness for C8 at a concrete two-image corpus. -/
theorem image_info_dict_keyed_by_stem_witness :
    (∀ p ∈ dictC8, ∃ img fn, img ∈ imgsC8 ∧ img.file_name = some fn ∧
        p.1 = splitextStem fn ∧ p.2 = img) ∧
    dictC8.length = imgsC8.length ∧
    (∀ k, lookupStr dictC8 k = lastImageFor imgsC8 k) := by
  have h := image_info_dict_keyed_by_stem ⟨some imgsC8, some []⟩ imgsC8 [] dictC8
    rfl (by decide)
  exact ⟨h.1, h.2.1 (by decide), h.2.2⟩

/-! ### Lemmas about the segmentation scaler -/

/-- The spec's description of normalization: walk the flat point stream as
(x, y) pairs, divide every x by `w` and every y by `hh`, keeping the pair
order and interleaving. -/
def spec_scaled_points (w hh : ℚ) : List ℚ → List ℚ
  | x :: y :: rest => x / w :: y / hh :: spec_scaled_points w hh rest
  | _ => []

/-- The spec's NormalizedPolygon for one annotation entry: the category
followed by the normalized flattened points. -/
def spec_normalized_polygon (cat w hh : ℚ) (flat : List ℚ) : List ℚ :=
  cat :: spec_scaled_points w hh flat

theorem even_pairUp (w hh : ℚ) :
    ∀ l : List ℚ, l.length % 2 = 0 →
      ∃ prs, pairUp l = some prs ∧
        (prs.map (fun q => [q.1 / w, q.2 / hh])).flatten = spec_scaled_points w hh l
  | [], _ => ⟨[], rfl, rfl⟩
  | [_], hlen => by simp at hlen
  | x :: y :: rest, hlen => by
    have hr : rest.length % 2 = 0 := by
      simp only [List.length_cons] at hlen
      omega
    obtain ⟨prs, hp, hf⟩ := even_pairUp w hh rest hr
    refine ⟨(x, y) :: prs, by simp [pairUp, hp], ?_⟩
    simp [spec_scaled_points, hf]

theorem pairUp_none_of_odd :
    ∀ l : List ℚ, l.length % 2 = 1 → pairUp l = none
  | [], h => by simp at h
  | [_], _ => rfl
  | x :: y :: rest, h => by
    have hr : rest.length % 2 = 1 := by
      simp only [List.length_cons] at h
      omega
    simp [pairUp, pairUp_none_of_odd rest hr]

theorem flatten_scaled_bounds (w hh : ℚ) (hw : 0 < w) (hhh : 0 < hh) :
    ∀ prs : List (ℚ × ℚ),
      (∀ q ∈ prs, 0 ≤ q.1 ∧ q.1 ≤ w ∧ 0 ≤ q.2 ∧ q.2 ≤ hh) →
      ∀ v ∈ (prs.map (fun q => [q.1 / w, q.2 / hh])).flatten, 0 ≤ v ∧ v ≤ 1 := by
  intro prs
  induction prs with
  | nil => intro _ v hv; simp at hv
  | cons q rest ih =>
    intro hb v hv
    have hq := hb q (List.mem_cons_self _ _)
    rw [List.map_cons, List.flatten_cons] at hv
    rcases List.mem_append.mp hv with hv | hv
    · rcases List.mem_cons.mp hv with hv | hv
      · subst hv
        exact ⟨div_nonneg hq.1 (le_of_lt hw), (div_le_one hw).mpr hq.2.1⟩
      · rcases List.mem_cons.mp hv with hv | hv
        · subst hv
          exact ⟨div_nonneg hq.2.2.1 (le_of_lt hhh), (div_le_one hhh).mpr hq.2.2.2⟩
        · exact absurd hv (List.not_mem_nil v)
    · exact ih (fun p hp => hb p (List.mem_cons_of_mem _ hp)) v hv

theorem scale_loop_char (dims : ImageDims) :
    ∀ (l : List AnnoDesc) (out : List (List ℚ)),
      get_scaled_segmentation_loop dims l = .ok out →
      out.length = l.length ∧
      ∀ i, i < l.length → ∃ a o, l[i]? = some a ∧ out[i]? = some o ∧
        scaleAnno dims a = .ok o := by
  intro l
  induction l with
  | nil =>
    intro out h
    simp only [get_scaled_segmentation_loop, Except.ok.injEq] at h
    subst h
    exact ⟨rfl, fun i hi => absurd hi (by simp)⟩
  | cons a rest ih =>
    intro out h
    cases hsa : scaleAnno dims a with
    | error e => simp [get_scaled_segmentation_loop, hsa] at h
    | ok s =>
      cases hrest : get_scaled_segmentation_loop dims rest with
      | error e => simp [get_scaled_segmentation_loop, hsa, hrest] at h
      | ok r =>
        simp only [get_scaled_segmentation_loop, hsa, hrest, Except.ok.injEq] at h
        subst h
        obtain ⟨hlen, hidx⟩ := ih r hrest
        refine ⟨by simp [hlen], fun i hi => ?_⟩
        cases i with
        | zero => exact ⟨a, s, by simp, by simp, hsa⟩
        | succ j =>
          have hj : j < rest.length := by
            simp only [List.length_cons] at hi
            omega
          obtain ⟨b, o, hb, ho, hso⟩ := hidx j hj
          exact ⟨b, o, by simpa using hb, by simpa using ho, hso⟩

theorem scale_loop_error_of_mem (dims : ImageDims) (a : AnnoDesc) (e : DataError)
    (hsa : scaleAnno dims a = .error e) :
    ∀ l : List AnnoDesc, a ∈ l → ∀ r, get_scaled_segmentation_loop dims l ≠ .ok r := by
  intro l
  induction l with
  | nil => intro hm; exact absurd hm (List.not_mem_nil a)
  | cons b rest ih =>
    intro hm r hok
    rcases List.mem_cons.mp hm with hb | hb
    · subst hb
      simp [get_scaled_segmentation_loop, hsa] at hok
    · cases hsb : scaleAnno dims b with
      | error e0 => simp [get_scaled_segmentation_loop, hsb] at hok
      | ok s =>
        cases hrest : get_scaled_segmentation_loop dims rest with
        | error e0 => simp [get_scaled_segmentation_loop, hsb, hrest] at hok
        | ok r0 => exact ih hb r0 hrest

/-- C2: for every annotation entry with a category and a segmentation whose
flattened point stream has even length, `get_scaled_segmentation` produces
the list `[category_id]` followed by the concatenation of all polygon rings
reinterpreted as (x, y) pairs with every x divided by the width and every y
divided by the height, re-flattened in the same pair order. -/
theorem scale_matches_spec_normalization (dims : ImageDims) (a : AnnoDesc)
    (cat : ℚ) (rings : List (List ℚ))
    (hc : a.category_id = some cat) (hs : a.segmentation = some rings)
    (he : rings.flatten.length % 2 = 0) :
    scaleAnno dims a =
      .ok (spec_normalized_polygon cat dims.width dims.height rings.flatten) ∧
    get_scaled_segmentation (some [a]) dims =
      .ok (some [spec_normalized_polygon cat dims.width dims.height rings.flatten]) := by
  obtain ⟨prs, hp, hf⟩ := even_pairUp dims.width dims.height rings.flatten he
  have h1 : scaleAnno dims a =
      .ok (spec_normalized_polygon cat dims.width dims.height rings.flatten) := by
    simp [scaleAnno, hc, hs, hp, spec_normalized_polygon, hf]
  exact ⟨h1, by simp [get_scaled_segmentation, get_scaled_segmentation_loop, h1]⟩

/-- The annotation of the spec's worked example: segmentation
`[[0,0,10,0,10,10,0,10]]`, category 5. -/
def exampleAnno : AnnoDesc := ⟨some 1, some 5, some false, some [[0, 0, 10, 0, 10, 10, 0, 10]]⟩

/-- Witness for C2: the spec's worked example.  For the square
`[[0,0,10,0,10,10,0,10]]` in a 10×10 image the output row is
`[category_id, 0,0, 1,0, 1,1, 0,1]`. -/
theorem scale_matches_spec_normalization_witness :
    get_scaled_segmentation (some [exampleAnno]) ⟨10, 10⟩ =
      .ok (some [[5, 0, 0, 1, 0, 1, 1, 0, 1]]) := by
  have h := (scale_matches_spec_normalization ⟨10, 10⟩ exampleAnno 5
    [[0, 0, 10, 0, 10, 10, 0, 10]] rfl rfl (by decide)).2
  rw [h]
  norm_num [spec_normalized_polygon, spec_scaled_points]

/-- An annotation entry whose single point (30, 20) lies outside a 10×10
image. -/
def oobAnno : AnnoDesc := ⟨some 1, some 7, some false, some [[30, 20]]⟩

/-- C3: when the width and height are positive and every input (x, y) pair
lies in `[0, w] × [0, h]`, every value after the leading category in the row
produced by the scaler lies in `[0, 1]`; and out-of-bounds coordinates are
not clamped — the point (30, 20) in a 10×10 image comes out as (3, 2),
beyond 1. -/
theorem scaled_values_in_unit_interval (dims : ImageDims) (a : AnnoDesc)
    (cat : ℚ) (rings : List (List ℚ)) (prs : List (ℚ × ℚ)) (out : List ℚ)
    (hw : 0 < dims.width) (hh : 0 < dims.height)
    (hc : a.category_id = some cat) (hs : a.segmentation = some rings)
    (hp : pairUp rings.flatten = some prs)
    (hb : ∀ q ∈ prs, 0 ≤ q.1 ∧ q.1 ≤ dims.width ∧ 0 ≤ q.2 ∧ q.2 ≤ dims.height)
    (h : scaleAnno dims a = .ok out) :
    (∀ v ∈ out.tail, 0 ≤ v ∧ v ≤ 1) ∧
    scaleAnno ⟨10, 10⟩ oobAnno = .ok [7, 3, 2] ∧ ¬((3 : ℚ) ≤ 1) := by
  refine ⟨?_, by norm_num [scaleAnno, oobAnno, pairUp], by norm_num⟩
  simp only [scaleAnno, hc, hs, hp, Except.ok.injEq] at h
  subst h
  simpa using flatten_scaled_bounds dims.width dims.height hw hh prs hb

/-- In-bounds data for the C3 witness: the segment (0,0)-(10,0) in a 10×10
image. -/
def inBoundsAnno : AnnoDesc := ⟨some 1, some 5, some false, some [[0, 0, 10, 0]]⟩

/-- Witness for C3 at the concrete in-bounds annotation entry. -/
theorem scaled_values_in_unit_interval_witness :
    (∀ v ∈ ([5, 0, 0, 1, 0] : List ℚ).tail, 0 ≤ v ∧ v ≤ 1) ∧
    scaleAnno ⟨10, 10⟩ oobAnno = .ok [7, 3, 2] ∧ ¬((3 : ℚ) ≤ 1) :=
  scaled_values_in_unit_interval ⟨10, 10⟩ inBoundsAnno 5 [[0, 0, 10, 0]]
    [(0, 0), (10, 0)] [5, 0, 0, 1, 0]
    (by norm_num) (by norm_num) rfl rfl rfl
    (by intro q hq; fin_cases hq <;> norm_num)
    (by norm_num [scaleAnno, inBoundsAnno, pairUp])

/-- C4: whenever `get_scaled_segmentation` succeeds on a non-`None` input
list, the output has exactly the input's length and its i-th row is the
scaled form of the i-th input entry (input order preserved). -/
theorem scale_preserves_length_and_order (dims : ImageDims)
    (annos : List AnnoDesc) (out : List (List ℚ))
    (h : get_scaled_segmentation (some annos) dims = .ok (some out)) :
    out.length = annos.length ∧
    ∀ i, i < annos.length → ∃ a o, annos[i]? = some a ∧ out[i]? = some o ∧
      scaleAnno dims a = .ok o := by
  have hl : get_scaled_segmentation_loop dims annos = .ok out := by
    cases hx : get_scaled_segmentation_loop dims annos with
    | error e => simp [get_scaled_segmentation, hx] at h
    | ok r =>
      simp only [get_scaled_segmentation, hx, Except.ok.injEq, Option.some.injEq] at h
      subst h
      rfl
  obtain ⟨hlen, hidx⟩ := scale_loop_char dims annos out hl
  exact ⟨hlen, fun i hi => hidx i (by omega)⟩

/-- Data for the C4 witness: two entries whose segmentations are an empty
ring list and one empty ring, so the rows are just the categories. -/
def pairAnnos : List AnnoDesc :=
  [⟨some 1, some 2, some false, some []⟩, ⟨some 1, some 9, some false, some [[]]⟩]

/-- Witness for C4 at a concrete two-entry list. -/
theorem scale_preserves_length_and_order_witness :
    ([[2], [9]] : List (List ℚ)).length = pairAnnos.length ∧
    ∀ i, i < pairAnnos.length → ∃ a o, pairAnnos[i]? = some a ∧
      ([[2], [9]] : List (List ℚ))[i]? = some o ∧ scaleAnno ⟨4, 6⟩ a = .ok o :=
  scale_preserves_length_and_order ⟨4, 6⟩ pairAnnos [[2], [9]] rfl

/-- C6: an annotation entry whose flattened point list has odd length makes
the scaler fail with `MalformedAnnotationError`, and any list containing
such an entry makes `get_scaled_segmentation` fail rather than return a
result with the entry dropped or truncated. -/
theorem odd_point_list_is_error (dims : ImageDims) (a : AnnoDesc)
    (cat : ℚ) (rings : List (List ℚ))
    (hc : a.category_id = some cat) (hs : a.segmentation = some rings)
    (ho : rings.flatten.length % 2 = 1) :
    scaleAnno dims a = .error .MalformedAnnotationError ∧
    ∀ annos, a ∈ annos → ∀ r, get_scaled_segmentation (some annos) dims ≠ .ok (some r) := by
  have h1 : scaleAnno dims a = .error .MalformedAnnotationError := by
    simp [scaleAnno, hc, hs, pairUp_none_of_odd rings.flatten ho]
  refine ⟨h1, fun annos hm r hok => ?_⟩
  cases hx : get_scaled_segmentation_loop dims annos with
  | error e => simp [get_scaled_segmentation, hx] at hok
  | ok r0 =>
    exact scale_loop_error_of_mem dims a .MalformedAnnotationError h1 annos hm r0 hx

/-- An annotation entry with an odd (three-value) point stream. -/
def oddAnno : AnnoDesc := ⟨some 1, some 2, some false, some [[1, 2, 3]]⟩

/-- Witness for C6 at the concrete odd-length annotation entry. -/
theorem odd_point_list_is_error_witness :
    scaleAnno ⟨4, 6⟩ oddAnno = .error .MalformedAnnotationError ∧
    get_scaled_segmentation (some [oddAnno]) ⟨4, 6⟩ ≠ .ok (some []) := by
  have h := odd_point_list_is_error ⟨4, 6⟩ oddAnno 2 [[1, 2, 3]] rfl rfl (by decide)
  exact ⟨h.1, h.2 [oddAnno] (List.mem_singleton.mpr rfl) []⟩

/-- C7: for every image-dimension value, `get_scaled_segmentation` maps the
`None` annotation input to `None` (no-data pass-through, not an empty
list). -/
theorem scale_none_returns_none :
    ∀ dims : ImageDims, get_scaled_segmentation none dims = .ok none :=
  fun _ => rfl

/-! ### Label-source discovery -/

/-- C9: when neither the structured JSON annotation file nor the per-phase
text-label directory exists, `find_labels_path` fails with
`LabelsNotFoundError`; and whenever it returns normally the format tag is
`"json"` or `"txt"`. -/
theorem labels_discovery_fails_or_tags (fs : FileSystem) (dp pn : String) :
    (fs.isfile (jsonLabelsPath dp pn) = false → fs.isdir (txtLabelsPath dp pn) = false →
      find_labels_path fs dp pn = .error .LabelsNotFoundError) ∧
    (∀ loc tag, find_labels_path fs dp pn = .ok (loc, tag) →
      tag = "json" ∨ tag = "txt") := by
  constructor
  · intro h1 h2
    simp [find_labels_path, h1, h2]
  · intro loc tag h
    by_cases hd : fs.isdir (txtLabelsPath dp pn)
    · by_cases he : ((fs.listdir (txtLabelsPath dp pn)).filter
          (fun f => strEndsWith f (".txt"))).isEmpty
      · simp [find_labels_path, hd, he] at h
      · simp only [find_labels_path, Bool.and_false, Bool.false_eq_true, if_false,
          hd, if_true, he, Except.ok.injEq, Prod.mk.injEq] at h
        exact Or.inr h.2.symm
    · simp [find_labels_path, hd] at h

/-- A filesystem with no files and no directories. -/
def fsEmpty : FileSystem := ⟨fun _ => false, fun _ => false, fun _ => []⟩

/-- A filesystem where every directory exists and lists one `.txt` file. -/
def fsTxt : FileSystem := ⟨fun _ => false, fun _ => true, fun _ => ["a.txt"]⟩

/-- Witness for C9: the empty filesystem fails; a filesystem with a label
directory holding one `.txt` file returns a tag in the allowed set. -/
theorem labels_discovery_fails_or_tags_witness :
    find_labels_path fsEmpty "data" "train" = .error .LabelsNotFoundError ∧
    (("txt" : String) = "json" ∨ ("txt" : String) = "txt") :=
  ⟨(labels_discovery_fails_or_tags fsEmpty "data" "train").1 rfl rfl,
   (labels_discovery_fails_or_tags fsTxt "data" "train").2
     (txtLabelsPath "data" "train") "txt" (by decide)⟩

/-- C10: `find_labels_path` can only ever return the `"txt"` tag — the JSON
branch is dead code (its guard conjoins `False`) — and when the JSON
annotation file exists but the text-label directory is missing or holds no
`.txt` file, the call still fails with `LabelsNotFoundError`. -/
theorem labels_discovery_returns_only_txt (fs : FileSystem) (dp pn : String) :
    (∀ loc tag, find_labels_path fs dp pn = .ok (loc, tag) → tag = "txt") ∧
    (fs.isfile (jsonLabelsPath dp pn) = true →
      (fs.isdir (txtLabelsPath dp pn) = false ∨
        ((fs.listdir (txtLabelsPath dp pn)).filter (fun f => strEndsWith f (".txt"))) = []) →
      find_labels_path fs dp pn = .error .LabelsNotFoundError) := by
  constructor
  · intro loc tag h
    by_cases hd : fs.isdir (txtLabelsPath dp pn)
    · by_cases he : ((fs.listdir (txtLabelsPath dp pn)).filter
          (fun f => strEndsWith f (".txt"))).isEmpty
      · simp [find_labels_path, hd, he] at h
      · simp only [find_labels_path, Bool.and_false, Bool.false_eq_true, if_false,
          hd, if_true, he, Except.ok.injEq, Prod.mk.injEq] at h
        exact h.2.symm
    · simp [find_labels_path, hd] at h
  · intro hjson hbad
    rcases hbad with hd | he
    · simp [find_labels_path, hd]
    · have he' : ((fs.listdir (txtLabelsPath dp pn)).filter
          (fun f => strEndsWith f (".txt"))).isEmpty = true := by
        simp [List.isEmpty_iff, he]
      by_cases hd : fs.isdir (txtLabelsPath dp pn) <;>
        simp [find_labels_path, hd, he']

/-- A filesystem where the JSON annotation file exists but no directory
does. -/
def fsJsonOnly : FileSystem := ⟨fun _ => true, fun _ => false, fun _ => []⟩

/-- A filesystem where the JSON annotation file and the text-label directory
both exist. -/
def fsBoth : FileSystem := ⟨fun _ => true, fun _ => true, fun _ => ["a.txt"]⟩

/-- Witness for C10: with both label sources present the returned tag is
still `"txt"`, and with only the JSON file present the call fails. -/
theorem labels_discovery_returns_only_txt_witness :
    ("txt" : String) = "txt" ∧
    find_labels_path fsJsonOnly "data" "val" = .error .LabelsNotFoundError :=
  ⟨(labels_discovery_returns_only_txt fsBoth "data" "val").1
      (txtLabelsPath "data" "val") "txt" (by decide),
   (labels_discovery_returns_only_txt fsJsonOnly "data" "val").2 rfl (Or.inl rfl)⟩

end DatasetHelper
